import Mathlib

/-!
Verification of the command-validation pipeline of an AI-powered terminal
(Python sources: safety_filter.py, command_executor.py, main.py).

Python strings are modelled as `List Char`.  `str.strip()` is modelled by
`strip`, the Python substring test `a in b` by `pyIn`, and `re.search`
over the restricted regular-expression dialect actually used by the
sources by the matcher `research` below.
-/

set_option maxHeartbeats 1000000

namespace SETerminal

/-- Python `str.strip()` on the left: drop leading whitespace. -/
def lstrip (s : List Char) : List Char := s.dropWhile Char.isWhitespace

/-- Python `str.strip()` on the right: drop trailing whitespace. -/
def rstrip (s : List Char) : List Char :=
  (s.reverse.dropWhile Char.isWhitespace).reverse

/-- Python `str.strip()`: drop leading and trailing whitespace. -/
def strip (s : List Char) : List Char := rstrip (lstrip s)

/-- Python substring membership `sub in s`. -/
def pyIn (sub s : List Char) : Bool := s.tails.any (fun t => sub.isPrefixOf t)

theorem pyIn_iff {sub s : List Char} : pyIn sub s = true ↔ sub <:+: s := by
  simp only [pyIn, List.any_eq_true, List.mem_tails,
    List.isPrefixOf_iff_prefix]
  constructor
  · rintro ⟨t, hts, hpt⟩
    exact List.infix_iff_prefix_suffix.mpr ⟨t, hpt, hts⟩
  · intro h
    obtain ⟨t, hpt, hts⟩ := List.infix_iff_prefix_suffix.mp h
    exact ⟨t, hts, hpt⟩

theorem dropWhile_cons_of_neg {p : Char → Bool} {h : Char} {t : List Char}
    (hp : p h = false) : (h :: t).dropWhile p = h :: t := by
  simp [List.dropWhile_cons, hp]

theorem dropWhile_cases (p : Char → Bool) (l : List Char) :
    l.dropWhile p = [] ∨
      ∃ h t, l.dropWhile p = h :: t ∧ p h = false := by
  induction l with
  | nil => exact Or.inl rfl
  | cons a l ih =>
    by_cases hp : p a = true
    · simpa [List.dropWhile_cons, hp] using ih
    · exact Or.inr ⟨a, l, by simp [List.dropWhile_cons, hp], by
        simpa using hp⟩

theorem dropWhile_idem {p : Char → Bool} {l : List Char} :
    (l.dropWhile p).dropWhile p = l.dropWhile p := by
  rcases dropWhile_cases p l with h | ⟨a, t, h, hp⟩
  · simp [h]
  · rw [h, dropWhile_cons_of_neg hp]

theorem rstrip_idem {l : List Char} : rstrip (rstrip l) = rstrip l := by
  simp [rstrip, dropWhile_idem]

/-- Reversal preserves infixes (constructively). -/
theorem infix_rev {a l : List Char} (h : a <:+: l) :
    a.reverse <:+: l.reverse := by
  obtain ⟨p, q, rfl⟩ := h
  exact ⟨q.reverse, p.reverse, by simp⟩

/-- A suffix of a reversal is a reversed "initial segment". -/
theorem init_of_rev_suffix {d x : List Char} (h : d <:+ x.reverse) :
    ∃ r, d.reverse ++ r = x := by
  obtain ⟨p, hp⟩ := h
  exact ⟨p.reverse, by
    have := congrArg List.reverse hp
    simpa using this⟩

/-- `rstrip l` is an initial segment of `l`. -/
theorem rstrip_init (l : List Char) : ∃ r, rstrip l ++ r = l := by
  obtain ⟨r, hr⟩ := init_of_rev_suffix
    (List.dropWhile_suffix (l := l.reverse) Char.isWhitespace)
  exact ⟨r, by simpa [rstrip] using hr⟩

theorem lstrip_rstrip {x : List Char} (hx : lstrip x = x) :
    lstrip (rstrip x) = rstrip x := by
  obtain ⟨r, hr⟩ := rstrip_init x
  cases hs : rstrip x with
  | nil => simp [lstrip, hs]
  | cons a t =>
    rw [hs] at hr
    cases x with
    | nil => exact absurd hr (by simp)
    | cons b u =>
      have hb : Char.isWhitespace b = false := by
        by_cases hpb : Char.isWhitespace b = true
        · exfalso
          have h1 : lstrip (b :: u) = lstrip u := by
            simp [lstrip, List.dropWhile_cons, hpb]
          have h2 : lstrip u = b :: u := by rw [← h1, hx]
          have h3 : (lstrip u).length ≤ u.length :=
            (List.dropWhile_suffix Char.isWhitespace).length_le
          rw [h2] at h3
          simp at h3
        · simpa using hpb
      have hab : a = b := by
        have := congrArg (fun l => l.head?) hr
        simpa using this
      subst hab
      exact dropWhile_cons_of_neg hb

theorem strip_idem {l : List Char} : strip (strip l) = strip l := by
  have h1 : lstrip (lstrip l) = lstrip l := dropWhile_idem
  have h2 : lstrip (rstrip (lstrip l)) = rstrip (lstrip l) :=
    lstrip_rstrip h1
  simp only [strip, h2, rstrip_idem]

/-- Dropping a satisfying-prefix preserves an infix whose first character
fails the predicate. -/
theorem infix_dropWhile {p : Char → Bool} {a l : List Char}
    (c : Char) (cs : List Char) (ha : a = c :: cs) (hc : p c = false)
    (h : a <:+: l) : a <:+: l.dropWhile p := by
  obtain ⟨pre, post, hl⟩ := h
  have key : ∀ pr : List Char, a <:+: (pr ++ (a ++ post)).dropWhile p := by
    intro pr
    induction pr with
    | nil =>
      rw [List.nil_append, ha, List.cons_append, dropWhile_cons_of_neg hc]
      exact ⟨[], post, by simp⟩
    | cons b pr ih =>
      rw [List.cons_append, List.dropWhile_cons]
      by_cases hb : p b = true
      · rw [if_pos hb]; exact ih
      · rw [if_neg hb]
        exact ⟨b :: pr, post, by simp⟩
  have hk := key pre
  rwa [← List.append_assoc, hl] at hk

/-- An infix that starts and ends with a non-whitespace character survives
`strip`. -/
theorem infix_strip {a l : List Char} (c d : Char) (cs ds : List Char)
    (ha : a = c :: cs) (har : a.reverse = d :: ds)
    (hc : c.isWhitespace = false) (hd : d.isWhitespace = false)
    (h : a <:+: l) : a <:+: strip l := by
  have h1 : a <:+: lstrip l := infix_dropWhile c cs ha hc h
  have h2 : a.reverse <:+: (lstrip l).reverse := infix_rev h1
  have h3 : a.reverse <:+: (lstrip l).reverse.dropWhile Char.isWhitespace :=
    infix_dropWhile d ds har hd h2
  have h4 := infix_rev h3
  simpa [strip, rstrip] using h4

/-!
Regular-expression model.  The patterns in `safety_filter.py` use only
literal runs, the escapes \s+ \s* \w+, one character class [a-z], and the
wildcard .* — so a token list over those shapes models them exactly.
`re.IGNORECASE` is the `ic` flag: literal characters and the class are
compared after `Char.toLower` folding, as Python does.
-/

/-- One token of the restricted regular-expression dialect. -/
inductive RTok where
  | lit (s : List Char)
  | sp1
  | sp0
  | wd1
  | cls (lo hi : Char)
  | dotstar
deriving DecidableEq, Repr

/-- Single-character comparison, optionally case-insensitive. -/
def charEq (ic : Bool) (a b : Char) : Bool :=
  if ic then a.toLower == b.toLower else a == b

/-- Does the literal run match at the head of `s` (not necessarily
consuming all of `s`)? -/
def litHere (ic : Bool) : List Char → List Char → Bool
  | [], _ => true
  | _ :: _, [] => false
  | a :: as, b :: bs => charEq ic a b && litHere ic as bs

/-- Python `\w` restricted to ASCII word characters. -/
def isWordChar (c : Char) : Bool := c.isAlphanum || c == '_'

/-- Membership of `c` in the class `[lo-hi]`, case-folded when `ic`. -/
def clsMatch (ic : Bool) (lo hi c : Char) : Bool :=
  (decide (lo ≤ c) && decide (c ≤ hi)) ||
    (ic && decide (lo ≤ c.toLower) && decide (c.toLower ≤ hi))

/-- Does the token sequence match a prefix of `s`?  Each starred/plussed
token tries every possible consumption length, so the boolean result
agrees with Python backtracking. -/
def matchHere (ic : Bool) : List RTok → List Char → Bool
  | [], _ => true
  | .lit l :: ts, s => litHere ic l s && matchHere ic ts (s.drop l.length)
  | .sp1 :: ts, s =>
      (List.range s.length).any fun k =>
        (s.take (k + 1)).all Char.isWhitespace && matchHere ic ts (s.drop (k + 1))
  | .sp0 :: ts, s =>
      (List.range (s.length + 1)).any fun k =>
        (s.take k).all Char.isWhitespace && matchHere ic ts (s.drop k)
  | .wd1 :: ts, s =>
      (List.range s.length).any fun k =>
        (s.take (k + 1)).all isWordChar && matchHere ic ts (s.drop (k + 1))
  | .cls _ _ :: _, [] => false
  | .cls lo hi :: ts, c :: rest => clsMatch ic lo hi c && matchHere ic ts rest
  | .dotstar :: ts, s =>
      (List.range (s.length + 1)).any fun k =>
        (s.take k).all (fun ch => !(ch == '\n')) && matchHere ic ts (s.drop k)

/-- Python `re.search` over the restricted dialect: try every start
position. -/
def research (ic : Bool) (toks : List RTok) (s : List Char) : Bool :=
  s.tails.any (matchHere ic toks)

/-!
SafetyFilter (safety_filter.py).  All string constants are verbatim from
the source; `{` and `}` appear via their character escapes.
-/
namespace SafetyFilter

/-- Literal denylist `SafetyFilter.DANGEROUS_COMMANDS`. -/
def DANGEROUS_COMMANDS : List (List Char) :=
  ["rm -rf /".data, "rm -rf /*".data, "mkfs".data, "dd if=".data,
   "> /dev/sda".data, "mv /home".data, "chmod -R 777 /".data,
   ":()\x7b:|:&\x7d;:".data]

/-- Pattern denylist `SafetyFilter.DANGEROUS_PATTERNS`, one token list per
regular expression, in source order. -/
def DANGEROUS_PATTERNS : List (List RTok) :=
  [[.lit "rm".data, .sp1, .lit "-rf".data, .sp1, .lit "/".data],
   [.lit "rm".data, .sp1, .lit "-rf".data, .sp1, .lit "/".data, .wd1],
   [.lit "rm".data, .sp1, .lit "-rf".data, .sp1, .lit "*".data],
   [.lit "mkfs.".data],
   [.lit "dd".data, .sp1, .lit "if=".data],
   [.lit ">".data, .sp0, .lit "/dev/sd".data, .cls 'a' 'z'],
   [.lit "chmod".data, .sp1, .lit "-R".data, .sp1, .lit "777".data, .sp1,
    .lit "/".data],
   [.lit "shutdown".data],
   [.lit "reboot".data],
   [.lit "init".data, .sp1, .lit "0".data],
   [.lit "init".data, .sp1, .lit "6".data],
   [.lit "halt".data],
   [.lit "poweroff".data],
   [.lit "chown".data, .sp1, .lit "-R".data],
   [.lit "mv".data, .sp1, .lit "/home".data],
   [.lit "mv".data, .sp1, .lit "/etc".data],
   [.lit "mv".data, .sp1, .lit "/usr".data],
   [.lit "mv".data, .sp1, .lit "/var".data],
   [.lit "mv".data, .sp1, .lit "/bin".data],
   [.lit "mv".data, .sp1, .lit "/sbin".data],
   [.lit "rm".data, .sp1, .lit "/etc/".data],
   [.lit "rm".data, .sp1, .lit "-rf".data, .sp1, .lit "~/".data],
   [.lit ":()\x7b".data, .dotstar, .lit "\x7d".data]]

/-- `SafetyFilter.SAFE_COMMANDS` — present in the source but never
consulted by `is_safe`; mirrored for completeness. -/
def SAFE_COMMANDS : List (List Char) :=
  ["ls".data, "pwd".data, "cat".data, "echo".data, "date".data,
   "whoami".data, "id".data, "uname".data, "df".data, "du".data,
   "free".data, "uptime".data, "w".data, "who".data, "which".data,
   "whereis".data, "head".data, "tail".data, "less".data, "more".data,
   "grep".data, "find".data, "locate".data, "ps".data, "top".data,
   "htop".data, "history".data, "env".data, "printenv".data, "wc".data,
   "sort".data, "uniq".data, "diff".data, "file".data, "stat".data]

/-- The fixed list `critical_dirs` local to `is_safe`. -/
def critical_dirs : List (List Char) :=
  ["/bin".data, "/sbin".data, "/usr".data, "/lib".data, "/lib64".data,
   "/boot".data, "/sys".data, "/proc".data]

/-- Token form of the source regex `rm\s+.*{dir}` (searched without
`re.IGNORECASE`). -/
def rmCritical (d : List Char) : List RTok :=
  [.lit "rm".data, .sp1, .dotstar, .lit d]

/-- Token form of the source regex `mv\s+{dir}` (searched without
`re.IGNORECASE`). -/
def mvCritical (d : List Char) : List RTok :=
  [.lit "mv".data, .sp1, .lit d]

/-- `SafetyFilter.is_safe` translated check for check.  The Python code
reassigns `command = command.strip()` after the emptiness test, so every
check below runs on `strip command`.  The `for` loops with early `return`
become `List.find?`. -/
def is_safe (command : List Char) : Bool × List Char :=
  if command.isEmpty || (strip command).isEmpty then
    (false, "Empty command".data)
  else
    match DANGEROUS_COMMANDS.find? (fun d => pyIn d (strip command)) with
    | some d =>
        (false, "Blocked: Command contains dangerous operation \x27".data
          ++ d ++ "\x27".data)
    | none =>
      match DANGEROUS_PATTERNS.find?
          (fun p => research true p (strip command)) with
      | some _ => (false, "Blocked: Command matches dangerous pattern".data)
      | none =>
        match critical_dirs.find? (fun d =>
            research false (rmCritical d) (strip command) ||
            research false (mvCritical d) (strip command)) with
        | some d =>
            if research false (rmCritical d) (strip command) then
              (false,
                "Blocked: Attempting to remove critical system directory ".data
                  ++ d)
            else
              (false,
                "Blocked: Attempting to move critical system directory ".data
                  ++ d)
        | none =>
          if "sudo ".data.isPrefixOf (strip command) ||
              pyIn " sudo ".data (strip command) then
            (false,
              "Blocked: sudo commands require manual execution for security".data)
          else if "su ".data.isPrefixOf (strip command) ||
              pyIn " su ".data (strip command) then
            (false,
              "Blocked: su commands require manual execution for security".data)
          else
            (true, "Command passed safety checks".data)

/-- `SafetyFilter.sanitize_command`.  `re.split(r'[;&|]+', c)[0]` is the
longest prefix of `c` free of the characters `;` `&` `|`, i.e. a
`takeWhile`. -/
def sanitize_command (command : List Char) : List Char :=
  if pyIn ";".data (strip command) || pyIn "&&".data (strip command) ||
      pyIn "||".data (strip command) then
    strip ((strip command).takeWhile
      (fun ch => !(ch == ';' || ch == '&' || ch == '|')))
  else
    strip command

end SafetyFilter

/-!
CommandExecutor (command_executor.py).  The subprocess call and the file
system are the environment's doing; they enter the model as oracle
parameters (`SpawnOutcome`, `FileSystem`), and the Python code around them
is translated exactly.
-/
namespace CommandExecutor

/-- Outcome of the one `subprocess.run` call inside `execute`: normal
completion with an exit code and captured output, expiry of the timeout
(`subprocess.TimeoutExpired`), or any other spawn-level exception with its
text (`except Exception as e`). -/
inductive SpawnOutcome where
  | completed (returncode : Int) (stdout stderr : List Char)
  | timedOut
  | spawnError (msg : List Char)
deriving DecidableEq, Repr

/-- `CommandExecutor.execute`.  Empty or whitespace-only commands are
rejected before the subprocess oracle is consulted; otherwise the three
`return` sites of the source map to the three outcome shapes.  Every
Python exception path is a `return`, so the function is total. -/
def execute (command : List Char) (timeout : Nat) (outcome : SpawnOutcome) :
    Bool × List Char × List Char :=
  if command.isEmpty || (strip command).isEmpty then
    (false, [], "Empty command".data)
  else
    match outcome with
    | .completed rc out err => (rc == 0, out, err)
    | .timedOut =>
        (false, [],
          "Command timed out after ".data ++ (Nat.repr timeout).data
            ++ " seconds".data)
    | .spawnError m =>
        (false, [], "Error executing command: ".data ++ m)

/-- Oracle view of the file-system queries used by
`set_working_directory`: `os.path.expanduser`, `os.path.exists`,
`os.path.isdir`. -/
structure FileSystem where
  expanduser : List Char → List Char
  path_exists : List Char → Bool
  isdir : List Char → Bool

/-- `CommandExecutor.set_working_directory`, with the stored
`self.working_directory` passed and returned explicitly.  The result pair
is (new stored directory, returned bool).  The Python `try`/`except`
wrapper has no failing operations in this pure model. -/
def set_working_directory (fs : FileSystem)
    (working_directory directory : List Char) : List Char × Bool :=
  let d := fs.expanduser directory
  if !(fs.path_exists d) then
    (working_directory, false)
  else if !(fs.isdir d) then
    (working_directory, false)
  else
    (d, true)

end CommandExecutor

/-!
SessionLogger and the pipeline orchestrator (main.py).  The file
session_logger.py is not part of the provided sources, so the Ledger is
modelled from the spec; `AITerminal._execute_command` is translated from
main.py.
-/
namespace SessionLogger

/-- Modelled from the spec: the immutable Log Entry record
`{ timestamp, natural_language_input, generated_or_direct_command,
stdout, stderr, error : optional string, blocked : bool }` of the missing
session_logger.py. -/
structure LogEntry where
  timestamp : Nat
  natural_language : List Char
  generated_command : List Char
  stdout : List Char
  stderr : List Char
  error : Option (List Char)
  blocked : Bool
deriving DecidableEq, Repr

/-- Modelled from the spec: `SessionLogger.log_interaction` of the missing
session_logger.py — append-only, always succeeds, always increases the
sequence length by one.  `now` stands for the entry timestamp. -/
def log_interaction (log : List LogEntry) (now : Nat)
    (natural_language command stdout stderr : List Char)
    (error : Option (List Char)) (blocked : Bool) : List LogEntry :=
  log ++ [⟨now, natural_language, command, stdout, stderr, error, blocked⟩]

end SessionLogger

namespace AITerminal

open SessionLogger

/-- `AITerminal._execute_command` (main.py lines 107-148), restricted to
its pipeline effects: the Verdict decides between the blocked branch
(which logs `stdout=""`, default `stderr=""`, `error=safety_message`,
`blocked=True` and returns before the Executor) and the executed branch
(which logs the Executor result with `blocked=False`).  The Executor
result arrives as the oracle argument `execResult`; the returned `Bool`
records whether the Executor was invoked.  GUI display calls and the
prompt update are outside the model. -/
def execute_command (log : List LogEntry) (now : Nat)
    (natural_language command : List Char)
    (execResult : Bool × List Char × List Char) :
    List LogEntry × Bool :=
  let v := SafetyFilter.is_safe command
  if !v.1 then
    (log_interaction log now natural_language command [] []
      (some v.2) true, false)
  else
    (log_interaction log now natural_language command
      execResult.2.1 execResult.2.2 none false, true)

end AITerminal

/-!
Helper lemmas about `is_safe`.
-/

open SafetyFilter

/-- `is_safe` answers `true` only when every one of its blocking
conditions is false on the stripped command: the function returns early
with `false` the moment any check fires. -/
theorem is_safe_allowed {c : List Char} (h : (is_safe c).1 = true) :
    (strip c).isEmpty = false ∧
    (∀ d ∈ DANGEROUS_COMMANDS, pyIn d (strip c) = false) ∧
    (∀ p ∈ DANGEROUS_PATTERNS, research true p (strip c) = false) ∧
    (∀ d ∈ critical_dirs,
      research false (rmCritical d) (strip c) = false ∧
      research false (mvCritical d) (strip c) = false) ∧
    "sudo ".data.isPrefixOf (strip c) = false ∧
    pyIn " sudo ".data (strip c) = false ∧
    "su ".data.isPrefixOf (strip c) = false ∧
    pyIn " su ".data (strip c) = false := by
  rw [is_safe] at h
  split at h
  · simp at h
  · rename_i hne
    split at h
    · simp at h
    · rename_i hdc
      split at h
      · simp at h
      · rename_i hdp
        split at h
        · split at h <;> simp at h
        · rename_i hcd
          split at h
          · simp at h
          · rename_i hsudo
            split at h
            · simp at h
            · rename_i hsu
              rw [List.find?_eq_none] at hdc hdp hcd
              simp only [Bool.or_eq_true, not_or, Bool.not_eq_true]
                at hne hsudo hsu
              simp only [Bool.or_eq_true, not_or, Bool.not_eq_true] at hcd
              exact ⟨hne.2, fun d hd => by simpa using hdc d hd,
                     fun p hp => by simpa using hdp p hp,
                     fun d hd => hcd d hd,
                     hsudo.1, hsudo.2, hsu.1, hsu.2⟩

theorem is_safe_strip (c : List Char) : is_safe c = is_safe (strip c) := by
  by_cases hc : c = []
  · subst hc; rfl
  · have hce : c.isEmpty = false := by simpa using hc
    simp only [is_safe, strip_idem, hce, Bool.false_or, Bool.or_self]

theorem ws_toLower {a : Char} (h : a.isWhitespace = true) : a.toLower = a := by
  simp only [Char.isWhitespace, Bool.or_eq_true, decide_eq_true_eq] at h
  rcases h with ((h | h) | h) | h <;> (subst h; decide)

theorem not_ws_of_toLower {a b : Char} (h : a.toLower = b)
    (hb : b.isWhitespace = false) : a.isWhitespace = false := by
  by_cases hw : a.isWhitespace = true
  · rw [ws_toLower hw] at h
    subst h
    exact hb
  · simpa using hw

theorem litHere_of_map {word w q : List Char}
    (h : w.map Char.toLower = word.map Char.toLower) :
    litHere true word (w ++ q) = true := by
  induction word generalizing w q with
  | nil => rfl
  | cons x xs ih =>
    rcases w with _ | ⟨b, bs⟩
    · simp at h
    · simp only [List.map_cons, List.cons.injEq] at h
      rw [List.cons_append]
      simp [litHere, charEq, h.1, ih h.2]

theorem research_word {w word s : List Char} (hw : w <:+: s)
    (h : w.map Char.toLower = word.map Char.toLower) :
    research true [RTok.lit word] s = true := by
  obtain ⟨p, q, hs⟩ := hw
  rw [research, List.any_eq_true]
  refine ⟨w ++ q, ?_, ?_⟩
  · rw [List.mem_tails]
    exact ⟨p, by rw [← List.append_assoc]; exact hs⟩
  · simp [matchHere, litHere_of_map h]

/-- A case-variant of a lowercase word of the pattern denylist occurring
anywhere inside the command forces a blocked verdict. -/
theorem blocked_of_ci_word {c w word : List Char}
    (hmem : [RTok.lit word] ∈ DANGEROUS_PATTERNS)
    (hlow : word.map Char.toLower = word)
    (x : Char) (xs : List Char) (hx : word = x :: xs)
    (hxw : x.isWhitespace = false)
    (y : Char) (ys : List Char) (hy : word.reverse = y :: ys)
    (hyw : y.isWhitespace = false)
    (hw : w <:+: c) (hmap : w.map Char.toLower = word) :
    (is_safe c).1 = false := by
  cases hb : (is_safe c).1
  · rfl
  · exfalso
    obtain ⟨-, -, hdp, -⟩ := is_safe_allowed hb
    have hmap' : w.map Char.toLower = x :: xs := by rw [hmap, hx]
    obtain ⟨a, as, haw, hax, -⟩ := List.map_eq_cons_iff.mp hmap'
    have haws : a.isWhitespace = false := not_ws_of_toLower hax hxw
    have hmapr : w.reverse.map Char.toLower = y :: ys := by
      rw [List.map_reverse, hmap, hy]
    obtain ⟨b, bs, hbw, hby, -⟩ := List.map_eq_cons_iff.mp hmapr
    have hbws : b.isWhitespace = false := not_ws_of_toLower hby hyw
    have hst : w <:+: strip c := infix_strip a b as bs haw hbw haws hbws hw
    have hres : research true [RTok.lit word] (strip c) = true :=
      research_word hst (by rw [hmap, hlow])
    rw [hdp [RTok.lit word] hmem] at hres
    exact Bool.false_ne_true hres

/-- C1: every string containing the literal fragment `rm -rf /` as a
substring — hence in particular `rm -rf /`, `rm -rf /etc` and `rm -rf /*`,
possibly embedded in a longer command — receives a blocked verdict (first
component `false`) from `SafetyFilter.is_safe`: the fragment survives
whitespace stripping and fires the literal denylist, and no branch of
`is_safe` past a fired check can answer `true`. -/
theorem C1_root_force_delete_blocked (s : List Char)
    (h : pyIn "rm -rf /".data s = true) :
    (SafetyFilter.is_safe s).1 = false := by
  cases hb : (is_safe s).1
  · rfl
  · exfalso
    obtain ⟨-, hdc, -⟩ := is_safe_allowed hb
    have hinf : "rm -rf /".data <:+: s := pyIn_iff.mp h
    have hst : "rm -rf /".data <:+: strip s :=
      infix_strip 'r' '/' "m -rf /".data " fr- mr".data (by decide)
        (by decide) (by decide) (by decide) hinf
    have hfalse := hdc "rm -rf /".data (by decide)
    rw [pyIn_iff.mpr hst] at hfalse
    exact Bool.noConfusion hfalse

/-- C1 witness: the command `rm -rf /etc` contains the fragment and is
blocked. -/
theorem C1_witness :
    pyIn "rm -rf /".data "rm -rf /etc".data = true ∧
    (SafetyFilter.is_safe "rm -rf /etc".data).1 = false :=
  ⟨by rfl, C1_root_force_delete_blocked _ (by rfl)⟩

/-- C2 counterexample: `rm /bin` and `RM /bin` are case-variants of each
other (identical after lowercasing), yet `is_safe` blocks the first (the
critical-directory guard searches its regexes without `re.IGNORECASE`)
and allows the second — so not every check is case-insensitive. -/
theorem C2_case_insensitive_cex :
    "RM /bin".data.map Char.toLower = "rm /bin".data.map Char.toLower ∧
    (SafetyFilter.is_safe "rm /bin".data).1 = false ∧
    (SafetyFilter.is_safe "RM /bin".data).1 = true := by
  refine ⟨by decide, by rfl, by rfl⟩

/-- C2 (amended): `is_safe` trims surrounding whitespace from the command
before any check — validating a command gives exactly the same verdict as
validating its stripped form — but only the pattern-denylist check is
case-insensitive; the literal denylist, the critical-directory guard and
the elevation guard compare case-sensitively, so a case-variant of a
command can receive a different decision. -/
theorem C2_is_safe_strip_invariant (c : List Char) :
    SafetyFilter.is_safe c = SafetyFilter.is_safe (strip c) :=
  is_safe_strip c

/-- C3 counterexample: the bare command `sudo` begins with the elevation
token `sudo`, yet `is_safe` allows it — the source only tests for the
prefix `sudo ` (with a trailing space) and the spaced infix ` sudo `. -/
theorem C3_elevation_cex :
    (SafetyFilter.is_safe "sudo".data).1 = true := by rfl

/-- C3 (amended): a command whose stripped form starts with `sudo ` or
`su ` (elevation token plus a following space) or contains ` sudo ` or
` su ` delimited by spaces on both sides is blocked, even when the rest of
the command is otherwise benign; bare elevation tokens without the
delimiting space (e.g. `sudo` alone, or a trailing `su`) are not caught. -/
theorem C3_elevation_blocked (c : List Char)
    (h : "sudo ".data.isPrefixOf (strip c) = true ∨
        pyIn " sudo ".data (strip c) = true ∨
        "su ".data.isPrefixOf (strip c) = true ∨
        pyIn " su ".data (strip c) = true) :
    (SafetyFilter.is_safe c).1 = false := by
  cases hb : (is_safe c).1
  · rfl
  · exfalso
    obtain ⟨-, -, -, -, h1, h2, h3, h4⟩ := is_safe_allowed hb
    rcases h with h | h | h | h <;> simp_all

/-- C3 witness: `sudo rm file.txt` starts with `sudo ` and is blocked. -/
theorem C3_witness :
    (SafetyFilter.is_safe "sudo rm file.txt".data).1 = false :=
  C3_elevation_blocked _ (Or.inl (by rfl))

/-- C8: each of the five benign read-only commands of the allowlist is
allowed with the affirmative reason string. -/
theorem C8_benign_allowlist_allowed :
    SafetyFilter.is_safe "ls -la".data =
      (true, "Command passed safety checks".data) ∧
    SafetyFilter.is_safe "pwd".data =
      (true, "Command passed safety checks".data) ∧
    SafetyFilter.is_safe "cat file.txt".data =
      (true, "Command passed safety checks".data) ∧
    SafetyFilter.is_safe "df -h".data =
      (true, "Command passed safety checks".data) ∧
    SafetyFilter.is_safe "whoami".data =
      (true, "Command passed safety checks".data) :=
  ⟨rfl, rfl, rfl, rfl, rfl⟩

/-- C9: any command containing a case-variant of `shutdown`, `reboot`,
`halt` or `poweroff` anywhere as a substring — even inside a longer word
or filename — is blocked: those pattern-denylist entries are unanchored
substring regexes searched with `re.IGNORECASE`. -/
theorem C9_power_word_substring_blocked (c : List Char)
    (h : ∃ w, w <:+: c ∧
        (w.map Char.toLower = "shutdown".data ∨
         w.map Char.toLower = "reboot".data ∨
         w.map Char.toLower = "halt".data ∨
         w.map Char.toLower = "poweroff".data)) :
    (SafetyFilter.is_safe c).1 = false := by
  obtain ⟨w, hw, hm | hm | hm | hm⟩ := h
  · exact blocked_of_ci_word (by decide) (by decide) 's' "hutdown".data
      (by decide) (by decide) 'n' "wodtuhs".data (by decide) (by decide)
      hw hm
  · exact blocked_of_ci_word (by decide) (by decide) 'r' "eboot".data
      (by decide) (by decide) 't' "oober".data (by decide) (by decide)
      hw hm
  · exact blocked_of_ci_word (by decide) (by decide) 'h' "alt".data
      (by decide) (by decide) 't' "lah".data (by decide) (by decide)
      hw hm
  · exact blocked_of_ci_word (by decide) (by decide) 'p' "oweroff".data
      (by decide) (by decide) 'f' "forewop".data (by decide) (by decide)
      hw hm

/-- C9 witness: `cat halted.txt` contains `halt` inside a filename and is
blocked. -/
theorem C9_witness :
    (SafetyFilter.is_safe "cat halted.txt".data).1 = false :=
  C9_power_word_substring_blocked _
    ⟨"halt".data, ⟨"cat ".data, "ed.txt".data, by decide⟩,
      Or.inr (Or.inr (Or.inl (by decide)))⟩

theorem mem_of_mem_strip {a : Char} {l : List Char} (h : a ∈ strip l) :
    a ∈ l := by
  obtain ⟨r0, hr0⟩ := rstrip_init (lstrip l)
  have h1 : a ∈ lstrip l := by
    rw [← hr0]
    exact List.mem_append_left _ h
  exact (List.dropWhile_suffix Char.isWhitespace).subset h1

theorem no_trigger_of_no_chain {l : List Char}
    (h : ∀ ch ∈ l, (ch == ';' || ch == '&' || ch == '|') = false) :
    (pyIn ";".data l || pyIn "&&".data l || pyIn "||".data l) = false := by
  have f : ∀ sub : List Char,
      (∃ ch ∈ sub, (ch == ';' || ch == '&' || ch == '|') = true) →
      pyIn sub l = false := by
    rintro sub ⟨ch, hch, hc⟩
    cases hp : pyIn sub l
    · rfl
    · exfalso
      have hm : ch ∈ l := (pyIn_iff.mp hp).subset hch
      rw [h ch hm] at hc
      exact Bool.noConfusion hc
  rw [f ";".data ⟨';', by decide, by decide⟩,
    f "&&".data ⟨'&', by decide, by decide⟩,
    f "||".data ⟨'|', by decide, by decide⟩]
  rfl

/-- C4 counterexample: in `ls | wc && echo x` the first of the three
listed chaining operators is the `&&`, so the claim predicts the
(trimmed) first sub-command `ls | wc`; but `re.split(r'[;&|]+', ...)`
also splits at the lone pipe, and the code returns `ls`. -/
theorem C4_sanitize_cex :
    SafetyFilter.sanitize_command "ls | wc && echo x".data ≠
      "ls | wc".data ∧
    SafetyFilter.sanitize_command "ls | wc && echo x".data = "ls".data :=
  ⟨by decide, by rfl⟩

/-- C4 (amended): `sanitize_command` trims surrounding whitespace; if the
trimmed command contains `;`, `&&` or `||`, the result is the trimmed
longest prefix of the trimmed command containing none of the three
characters `;` `&` `|` — truncation happens at the first occurrence of
any of those characters, so a lone `&` or `|` standing before the first
listed operator also truncates; a command containing none of `;`, `&&`,
`||` (in particular one whose only chaining is a lone pipe) is returned
un-split, merely trimmed. -/
theorem C4_sanitize_first_fragment (c : List Char) :
    ((pyIn ";".data (strip c) || pyIn "&&".data (strip c) ||
        pyIn "||".data (strip c)) = false →
      SafetyFilter.sanitize_command c = strip c) ∧
    ((pyIn ";".data (strip c) || pyIn "&&".data (strip c) ||
        pyIn "||".data (strip c)) = true →
      ∃ pre rest, strip c = pre ++ rest ∧
        (∀ ch ∈ pre, (ch == ';' || ch == '&' || ch == '|') = false) ∧
        (rest = [] ∨ ∃ h0 hs, rest = h0 :: hs ∧
          (h0 == ';' || h0 == '&' || h0 == '|') = true) ∧
        SafetyFilter.sanitize_command c = strip pre) := by
  constructor
  · intro h
    rw [SafetyFilter.sanitize_command, if_neg (by simp [h])]
  · intro h
    refine ⟨(strip c).takeWhile
        (fun ch => !(ch == ';' || ch == '&' || ch == '|')),
      (strip c).dropWhile
        (fun ch => !(ch == ';' || ch == '&' || ch == '|')),
      (List.takeWhile_append_dropWhile _ _).symm, ?_, ?_, ?_⟩
    · intro ch hch
      have := List.mem_takeWhile_imp hch
      simpa using this
    · rcases dropWhile_cases
          (fun ch => !(ch == ';' || ch == '&' || ch == '|')) (strip c) with
        hnil | ⟨h0, t0, heq, hq⟩
      · exact Or.inl hnil
      · refine Or.inr ⟨h0, t0, heq, ?_⟩
        have h2 := congrArg (fun b => !b) hq
        simpa only [Bool.not_not, Bool.not_false] using h2
    · rw [SafetyFilter.sanitize_command, if_pos (by simp [h])]

/-- C4 witness: a lone-pipe command is returned un-split, and a `&&`
command is truncated to a chain-character-free trimmed prefix. -/
theorem C4_witness :
    SafetyFilter.sanitize_command "ls -la | wc".data =
      strip "ls -la | wc".data ∧
    (∃ pre rest, strip "mkdir t && cd t".data = pre ++ rest ∧
      (∀ ch ∈ pre, (ch == ';' || ch == '&' || ch == '|') = false) ∧
      (rest = [] ∨ ∃ h0 hs, rest = h0 :: hs ∧
        (h0 == ';' || h0 == '&' || h0 == '|') = true) ∧
      SafetyFilter.sanitize_command "mkdir t && cd t".data = strip pre) :=
  ⟨(C4_sanitize_first_fragment _).1 (by rfl),
   (C4_sanitize_first_fragment _).2 (by rfl)⟩

/-- C10: `sanitize_command` is idempotent.  When the chaining test fires,
one application returns a trimmed prefix containing none of `;` `&` `|`,
on which the test can no longer fire; when it does not fire, the result
is the stripped command, and stripping is idempotent. -/
theorem C10_sanitize_idempotent (c : List Char) :
    SafetyFilter.sanitize_command (SafetyFilter.sanitize_command c) =
      SafetyFilter.sanitize_command c := by
  by_cases ht : (pyIn ";".data (strip c) || pyIn "&&".data (strip c) ||
      pyIn "||".data (strip c)) = true
  case neg =>
    have h1 : SafetyFilter.sanitize_command c = strip c := by
      rw [SafetyFilter.sanitize_command, if_neg ht]
    rw [h1, SafetyFilter.sanitize_command, strip_idem, if_neg ht]
  case pos =>
    have h1 : SafetyFilter.sanitize_command c = strip ((strip c).takeWhile
        (fun ch => !(ch == ';' || ch == '&' || ch == '|'))) := by
      rw [SafetyFilter.sanitize_command, if_pos ht]
    have hchain : ∀ ch ∈ strip ((strip c).takeWhile
        (fun ch => !(ch == ';' || ch == '&' || ch == '|'))),
        (ch == ';' || ch == '&' || ch == '|') = false := by
      intro ch hch
      have h2 := List.mem_takeWhile_imp (mem_of_mem_strip hch)
      simpa using h2
    have hng := no_trigger_of_no_chain hchain
    rw [h1, SafetyFilter.sanitize_command, strip_idem,
      if_neg (by rw [hng]; exact Bool.false_ne_true)]

/-- C5: every pipeline invocation reaching the validation step appends
exactly one log entry; a blocked verdict skips the Executor (second
component `false`) and logs `blocked=true`, empty stdout, and the
verdict's reason as the error; an allowed verdict logs `blocked=false`
regardless of whether the execution succeeded. -/
theorem C5_pipeline_logs_exactly_once (log : List SessionLogger.LogEntry)
    (now : Nat) (nl cmd : List Char)
    (res : Bool × List Char × List Char) :
    ((AITerminal.execute_command log now nl cmd res).1).length =
      log.length + 1 ∧
    ((SafetyFilter.is_safe cmd).1 = false →
      (AITerminal.execute_command log now nl cmd res).2 = false ∧
      (AITerminal.execute_command log now nl cmd res).1 =
        log ++ [⟨now, nl, cmd, [], [],
          some (SafetyFilter.is_safe cmd).2, true⟩]) ∧
    ((SafetyFilter.is_safe cmd).1 = true →
      (AITerminal.execute_command log now nl cmd res).2 = true ∧
      (AITerminal.execute_command log now nl cmd res).1 =
        log ++ [⟨now, nl, cmd, res.2.1, res.2.2, none, false⟩]) := by
  cases hv : (SafetyFilter.is_safe cmd).1 <;>
    simp [AITerminal.execute_command, SessionLogger.log_interaction, hv]

/-- C5 witness: on the blocked command `rm -rf /` one entry is logged
with `blocked=true` and the Executor is skipped. -/
theorem C5_witness :
    (AITerminal.execute_command [] 0 "delete everything".data
        "rm -rf /".data (true, "x".data, [])).1 =
      [⟨0, "delete everything".data, "rm -rf /".data, [], [],
        some (SafetyFilter.is_safe "rm -rf /".data).2, true⟩] ∧
    (AITerminal.execute_command [] 0 "delete everything".data
        "rm -rf /".data (true, "x".data, [])).2 = false := by
  have h := (C5_pipeline_logs_exactly_once [] 0 "delete everything".data
    "rm -rf /".data (true, "x".data, [])).2.1 (by rfl)
  exact ⟨by simpa using h.2, h.1⟩

/-- C6: `CommandExecutor.execute` is a total function whose failure modes
are all returned as data: empty or whitespace-only input yields
`(false, "", "Empty command")` for every spawn outcome — so without
consulting the subprocess oracle at all; on timeout it yields a failed
result whose stderr names the timeout duration; on a spawn-level failure
it yields a failed result whose stderr carries the failure description. -/
theorem C6_executor_failure_modes (c : List Char) (t : Nat) :
    (strip c = [] →
      ∀ o : CommandExecutor.SpawnOutcome,
        CommandExecutor.execute c t o = (false, [], "Empty command".data)) ∧
    (strip c ≠ [] →
      CommandExecutor.execute c t .timedOut =
        (false, [], "Command timed out after ".data ++ (Nat.repr t).data ++
          " seconds".data)) ∧
    (strip c ≠ [] →
      ∀ m, CommandExecutor.execute c t (.spawnError m) =
        (false, [], "Error executing command: ".data ++ m)) := by
  refine ⟨?_, ?_, ?_⟩
  · intro h o
    simp [CommandExecutor.execute, h]
  · intro h
    have h2 : (strip c).isEmpty = false := by
      cases hs : strip c
      · exact absurd hs h
      · rfl
    have h1 : c.isEmpty = false := by
      cases c with
      | nil => exact absurd rfl h
      | cons a l => rfl
    simp [CommandExecutor.execute, h1, h2]
  · intro h m
    have h2 : (strip c).isEmpty = false := by
      cases hs : strip c
      · exact absurd hs h
      · rfl
    have h1 : c.isEmpty = false := by
      cases c with
      | nil => exact absurd rfl h
      | cons a l => rfl
    simp [CommandExecutor.execute, h1, h2]

/-- C6 witness: the three failure modes at concrete inputs. -/
theorem C6_witness :
    CommandExecutor.execute "   ".data 5
        (.completed 0 "x".data []) = (false, [], "Empty command".data) ∧
    CommandExecutor.execute "sleep 99".data 1 .timedOut =
      (false, [], "Command timed out after 1 seconds".data) ∧
    CommandExecutor.execute "ls".data 5 (.spawnError "boom".data) =
      (false, [], "Error executing command: boom".data) := by
  refine ⟨?_, ?_, ?_⟩
  · exact (C6_executor_failure_modes "   ".data 5).1 (by decide) _
  · exact ((C6_executor_failure_modes "sleep 99".data 1).2.1
      (by decide)).trans (by decide)
  · exact ((C6_executor_failure_modes "ls".data 5).2.2
      (by decide) "boom".data).trans (by decide)

/-- C7: `set_working_directory` returns `false` and leaves the stored
directory unchanged when the home-expanded path does not exist or is not
a directory, and otherwise stores the expanded path and returns `true`;
consequently a stored directory that exists keeps existing across any
call (mutation only ever installs a path whose existence was just
checked). -/
theorem C7_set_working_directory_safe (fs : CommandExecutor.FileSystem)
    (wd dir : List Char) :
    ((fs.path_exists (fs.expanduser dir) = false ∨
        fs.isdir (fs.expanduser dir) = false) →
      CommandExecutor.set_working_directory fs wd dir = (wd, false)) ∧
    (fs.path_exists (fs.expanduser dir) = true →
      fs.isdir (fs.expanduser dir) = true →
      CommandExecutor.set_working_directory fs wd dir =
        (fs.expanduser dir, true)) ∧
    (fs.path_exists wd = true →
      fs.path_exists
        (CommandExecutor.set_working_directory fs wd dir).1 = true) := by
  cases he : fs.path_exists (fs.expanduser dir) <;>
    cases hd : fs.isdir (fs.expanduser dir) <;>
      simp [CommandExecutor.set_working_directory, he, hd]

/-- C7 witness: with a file system in which exactly `/tmp` exists and is
a directory, setting the directory to `/nope` fails without mutation and
setting it to `/tmp` succeeds. -/
theorem C7_witness :
    CommandExecutor.set_working_directory
      ⟨id, fun p => p == "/tmp".data, fun p => p == "/tmp".data⟩
      "/home/user".data "/nope".data = ("/home/user".data, false) ∧
    CommandExecutor.set_working_directory
      ⟨id, fun p => p == "/tmp".data, fun p => p == "/tmp".data⟩
      "/home/user".data "/tmp".data = ("/tmp".data, true) := by
  constructor
  · exact (C7_set_working_directory_safe _ _ _).1 (Or.inl (by decide))
  · exact (C7_set_working_directory_safe
      ⟨id, fun p => p == "/tmp".data, fun p => p == "/tmp".data⟩
      "/home/user".data "/tmp".data).2.1 (by decide) (by decide)

end SETerminal
